import Mathlib

/-!
Verification of the IPO telegram report script (`src/main.py`).

The script fetches IPO calendars from two providers (Alpha Vantage and
Finnhub), normalizes them into a common tabular shape
`{symbol, Company Name, IPO Date}`, merges and deduplicates them, builds a
weekday-dependent report text, and sends it to a list of chat destinations
with truncation at Telegram's 4096-character limit.

Dates are modelled as proleptic Gregorian ordinals (`Nat`), matching
Python's `date.toordinal()` (0001-01-01 = 1).  Python's
`date.weekday()` (Monday = 0) is `(ordinal + 6) % 7`.  Text is modelled as
Lean `String`; a Python `str` slice `s[:n]` is `String.mk (s.data.take n)`.
-/

set_option autoImplicit false

namespace IpoBot

/-- Calendar helper: is `y` a Gregorian leap year (Python `calendar.isleap`). -/
def isLeap (y : Nat) : Bool :=
  y % 4 = 0 && (y % 100 != 0 || y % 400 = 0)

/-- Cumulative days before month `m` (1..12) in year `y`. -/
def daysBeforeMonth (y m : Nat) : Nat :=
  let base := [0, 0, 31, 59, 90, 120, 151, 181, 212, 243, 273, 304, 334].getD m 0
  if 3 ≤ m && isLeap y then base + 1 else base

/-- Number of days in month `m` (1..12) of year `y`. -/
def daysInMonth (y m : Nat) : Nat :=
  let base := [0, 31, 28, 31, 30, 31, 30, 31, 31, 30, 31, 30, 31].getD m 0
  if m = 2 && isLeap y then base + 1 else base

/-- Proleptic Gregorian ordinal of a calendar date, as Python `date.toordinal`:
`toOrdinal 1 1 1 = 1`. -/
def toOrdinal (y m d : Nat) : Nat :=
  let p := y - 1
  365 * p + p / 4 + p / 400 + daysBeforeMonth y m + d - p / 100

/-- Inverse of `toOrdinal`: `(year, month, day)` of an ordinal, via the
standard civil-from-days arithmetic. -/
def civilFromOrdinal (ord : Nat) : Nat × Nat × Nat :=
  let z := ord + 305
  let era := z / 146097
  let doe := z % 146097
  let yoe := (doe - doe / 1460 + doe / 36524 - doe / 146096) / 365
  let y := yoe + era * 400
  let doy := doe - (365 * yoe + yoe / 4 - yoe / 100)
  let mp := (5 * doy + 2) / 153
  let d := doy - (153 * mp + 2) / 5 + 1
  let m := if mp < 10 then mp + 3 else mp - 9
  (if m ≤ 2 then y + 1 else y, m, d)

/-- Python `date.weekday()`: Monday = 0 .. Sunday = 6. -/
def weekdayOf (ord : Nat) : Nat :=
  (ord + 6) % 7

/-- `strftime('%A')` day names, indexed by `weekdayOf`. -/
def dayName (w : Nat) : String :=
  ["Monday", "Tuesday", "Wednesday", "Thursday", "Friday", "Saturday", "Sunday"].getD w ""

/-- `strftime('%b')` month abbreviations, 1-indexed. -/
def monthAbbrev (m : Nat) : String :=
  ["", "Jan", "Feb", "Mar", "Apr", "May", "Jun", "Jul", "Aug", "Sep", "Oct", "Nov", "Dec"].getD m ""

/-- Two-digit zero padding, as `strftime('%d')`. -/
def pad2 (n : Nat) : String :=
  if n < 10 then "0" ++ toString n else toString n

/-- `today.strftime('%b %d')`, e.g. `"Jun 06"`. -/
def strftimeBD (ord : Nat) : String :=
  let c := civilFromOrdinal ord
  monthAbbrev c.2.1 ++ " " ++ pad2 c.2.2

/-- `date.strftime('%A, %b %d')`, used for the per-date sub-headings. -/
def strftimeABD (ord : Nat) : String :=
  dayName (weekdayOf ord) ++ ", " ++ strftimeBD ord

/-- A row in the common adapter output shape `{symbol, Company Name, IPO Date}`
with the date still a raw string.  `symbol` is `Option String` because a
Finnhub row may lack the field (a pandas `NaN` cell). -/
structure RawRecord where
  symbol : Option String
  companyName : String
  ipoDate : String
deriving Repr, DecidableEq

/-- A row after `pd.to_datetime(..., errors='coerce')`: the date column now
holds a parsed ordinal or `none` (pandas `NaT`). -/
structure IpoRecord where
  symbol : Option String
  companyName : String
  ipoDate : Option Nat
deriving Repr, DecidableEq

/-- Split a character list on dashes, like `str.split('-')`. -/
def splitDash : List Char → List (List Char)
  | [] => [[]]
  | c :: cs =>
    let r := splitDash cs
    if c = '-' then [] :: r
    else
      match r with
      | [] => [[c]]
      | h :: t => (c :: h) :: t

/-- Digit parsing for a date component; `none` when the piece is empty or
not all digits. -/
def digitsToNat (l : List Char) : Option Nat :=
  if l.isEmpty then none
  else if l.all Char.isDigit then
    some (l.foldl (fun acc c => acc * 10 + (c.toNat - 48)) 0)
  else none

/-- Model of `pd.to_datetime(_, errors='coerce')` on one cell for the wire
format both providers use (`YYYY-MM-DD`): the date's ordinal, or `none` when
the cell does not parse as a valid calendar date. -/
def parseDate (s : String) : Option Nat :=
  match splitDash s.data with
  | [ys, ms, ds] =>
    match digitsToNat ys, digitsToNat ms, digitsToNat ds with
    | some y, some m, some d =>
      if 1 ≤ y && 1 ≤ m && m ≤ 12 && 1 ≤ d && d ≤ daysInMonth y m then
        some (toOrdinal y m d)
      else none
    | _, _, _ => none
  | _ => none

/-- The `pd.to_datetime` step applied to one row. -/
def coerceDate (r : RawRecord) : IpoRecord :=
  ⟨r.symbol, r.companyName, parseDate r.ipoDate⟩

/-- `dropna(subset=['IPO Date'])`: keep only rows whose date parsed. -/
def dropNa (l : List IpoRecord) : List IpoRecord :=
  l.filter (fun r => r.ipoDate.isSome)

/-- `drop_duplicates(subset=['symbol'], keep='first')`: keep the first row for
each symbol, scanning left to right with the set of symbols seen so far. -/
def dedupGo (seen : List (Option String)) : List IpoRecord → List IpoRecord
  | [] => []
  | r :: rs =>
    if r.symbol ∈ seen then dedupGo seen rs
    else r :: dedupGo (r.symbol :: seen) rs

/-- The Aggregator `get_ipo_data`, applied to the two adapters' outputs:
concatenate, coerce dates, drop unparseable dates, deduplicate by symbol. -/
def get_ipo_data (avIpos fhIpos : List RawRecord) : List IpoRecord :=
  let combined := avIpos ++ fhIpos
  if combined.isEmpty then []
  else dedupGo [] (dropNa (combined.map coerceDate))

/-- First element of `l` whose symbol is `sym` (used to specify
`keep='first'`). -/
def firstWithSymbol (sym : Option String) : List IpoRecord → Option IpoRecord
  | [] => none
  | r :: rs => if r.symbol = sym then some r else firstWithSymbol sym rs

/-- The concatenated, date-coerced, date-valid rows the dedup step scans. -/
def validRows (avIpos fhIpos : List RawRecord) : List IpoRecord :=
  dropNa ((avIpos ++ fhIpos).map coerceDate)

/-- A raw Finnhub calendar entry: `symbol` may be missing from the JSON
object, `name` and `date` are present. -/
structure FinnhubRaw where
  symbol : Option String
  name : String
  date : String
deriving Repr, DecidableEq

/-- The Finnhub adapter `get_finnhub_ipos` after a successful fetch, applied
to the decoded `ipoCalendar` list.  `pd.DataFrame(data)` has a `symbol`
column exactly when some entry carries the key; the script's
`if 'symbol' not in df.columns: df['symbol'] = 'N/A'` therefore fills the
placeholder only when every entry lacks the key — otherwise entries without
it keep a `NaN` cell (`none` here). -/
def get_finnhub_ipos (data : List FinnhubRaw) : List RawRecord :=
  if data.isEmpty then []
  else if data.all (fun r => r.symbol.isNone) then
    data.map (fun r => ⟨some "N/A", r.name, r.date⟩)
  else
    data.map (fun r => ⟨r.symbol, r.name, r.date⟩)

/-- The pandas mask `(df['IPO Date'] >= start) & (df['IPO Date'] <= end)` on
one cell; a `NaT` cell compares false. -/
def dateInRange (d : Option Nat) (s e : Nat) : Bool :=
  match d with
  | some x => s ≤ x && x ≤ e
  | none => false

/-- `df.loc[mask]`: the rows of `df` whose date lies in `[s, e]`. -/
def periodFilter (df : List IpoRecord) (s e : Nat) : List IpoRecord :=
  df.filter (fun r => dateInRange r.ipoDate s e)

/-- Sort key for `sort_values(by='IPO Date')`. -/
def dateVal (d : Option Nat) : Nat :=
  match d with
  | some x => x
  | none => 0

/-- Stable insertion of a row into a date-sorted list. -/
def insertByDate (r : IpoRecord) : List IpoRecord → List IpoRecord
  | [] => [r]
  | x :: xs =>
    if dateVal r.ipoDate ≤ dateVal x.ipoDate then r :: x :: xs
    else x :: insertByDate r xs

/-- `period_df.sort_values(by='IPO Date')`: ascending sort by date. -/
def sortByDate : List IpoRecord → List IpoRecord
  | [] => []
  | r :: rs => insertByDate r (sortByDate rs)

/-- `groupby(period_df['IPO Date'].dt.date)` on the date-sorted rows:
maximal runs of equal dates, in order. -/
def groupByDate : List IpoRecord → List (Nat × List IpoRecord)
  | [] => []
  | r :: rs =>
    match groupByDate rs with
    | [] => [(dateVal r.ipoDate, [r])]
    | (d, g) :: t =>
      if dateVal r.ipoDate = d then (d, r :: g) :: t
      else (dateVal r.ipoDate, [r]) :: (d, g) :: t

/-- How a pandas cell prints inside an f-string: a `NaN` symbol prints as
`nan`. -/
def symStr (s : Option String) : String :=
  match s with
  | some x => x
  | none => "nan"

/-- One date group of the report body:
`_{date}_`, one `- {Company Name} ({symbol})` line per row, a blank line. -/
def renderGroup (d : Nat) (g : List IpoRecord) : String :=
  "_" ++ strftimeABD d ++ "_\n" ++
    g.foldl (fun acc r => acc ++ "- " ++ r.companyName ++ " (" ++ symStr r.symbol ++ ")\n") "" ++
    "\n"

/-- The Report Renderer `format_ipo_period`: filter to the window, and either
the empty-state section or the grouped listing. -/
def format_ipo_period (df : List IpoRecord) (s e : Nat) (title emptyMessage : String) : String :=
  if df.isEmpty then "**" ++ title ++ "**\n_" ++ emptyMessage ++ "_\n\n"
  else
    let periodDf := periodFilter df s e
    if periodDf.isEmpty then "**" ++ title ++ "**\n_" ++ emptyMessage ++ "_\n\n"
    else
      "**" ++ title ++ "**\n" ++
        (groupByDate (sortByDate periodDf)).foldl (fun acc g => acc ++ renderGroup g.1 g.2) ""

/-- One section of the report: a titled date range with its empty-state
message, as passed to `format_ipo_period` by the main block. -/
structure ReportWindow where
  title : String
  startDate : Nat
  endDate : Nat
  emptyMessage : String
deriving Repr, DecidableEq

/-- The Period Partitioner: the ordered windows the main block reports for a
given day, read off the weekday branches of `__main__`.  `t` is today's
ordinal.  The Monday–Wednesday branch guards its second window with
`start_of_rest_of_week <= end_of_week`. -/
def planWindows (t : Nat) : List ReportWindow :=
  let w := weekdayOf t
  if w ≤ 2 then
    ⟨"Today\x27s IPOs", t, t, "None for today."⟩ ::
      (if t + 1 ≤ t + (6 - w) then
        [⟨"Remainder of This Week", t + 1, t + (6 - w), "None for the rest of this week."⟩]
      else [])
  else if w = 3 then
    [⟨"Today\x27s IPOs", t, t, "None for today."⟩,
     ⟨"Remainder of This Week", t + 1, t + 3, "None for the rest of this week."⟩,
     ⟨"Next Week\x27s IPOs", t + 4, t + 10, "None scheduled for next week yet."⟩]
  else if w = 4 then
    [⟨"Today\x27s IPOs", t, t, "None for today."⟩,
     ⟨"Next Week\x27s IPOs", t + 3, t + 9, "None scheduled for next week yet."⟩]
  else
    [⟨"Upcoming IPOs for the Next 7 Days (" ++ strftimeBD t ++ " - " ++ strftimeBD (t + 7) ++ ")",
      t, t + 7, "No IPOs found for the upcoming 7 days."⟩]

/-- The report headline each weekday branch prepends (the weekend branch has
none). -/
def reportHeader (t : Nat) : String :=
  let w := weekdayOf t
  if w ≤ 2 then "**IPO Report for " ++ dayName w ++ ", " ++ strftimeBD t ++ "**\n\n"
  else if w = 3 then "**IPO Outlook for Thursday, " ++ strftimeBD t ++ "**\n\n"
  else if w = 4 then "**IPO Report for Friday, " ++ strftimeBD t ++ "**\n\n"
  else ""

/-- The fixed sentence sent when no data was retrieved. -/
def noIpoMessage (t : Nat) : String :=
  "No IPOs scheduled for today, " ++ dayName (weekdayOf t) ++ ", " ++ strftimeBD t ++ "."

/-- The message the main block builds: the empty-data branch, or the
headline followed by one `format_ipo_period` section per planned window. -/
def buildMessage (ipoData : List IpoRecord) (t : Nat) : String :=
  if ipoData.isEmpty then noIpoMessage t
  else
    reportHeader t ++
      (planWindows t).foldl
        (fun acc w => acc ++ format_ipo_period ipoData w.startDate w.endDate w.title w.emptyMessage)
        ""

/-- What one `try: bot.send_message(...) except` iteration records. -/
inductive SendOutcome where
  | success
  | failure (err : String)
deriving Repr, DecidableEq

/-- Collapse a send result into the recorded outcome. -/
def outcomeOf (r : Except String Unit) : SendOutcome :=
  match r with
  | .ok _ => .success
  | .error e => .failure e

/-- The truncation applied before each send:
`message[:4090] + "\n..."` when the text exceeds 4096 characters. -/
def truncateForSend (message : String) : String :=
  if message.length > 4096 then String.mk (message.data.take 4090) ++ "\n..." else message

/-- The delivery loop of `__main__`: for each chat id, attempt the
(possibly truncated) send inside `try/except` and record the outcome, then
continue with the remaining chat ids. -/
def sendLoop (send : String → String → Except String Unit) (message : String) :
    List String → List (String × SendOutcome)
  | [] => []
  | chatId :: rest =>
    let result :=
      if message.length > 4096 then send chatId (String.mk (message.data.take 4090) ++ "\n...")
      else send chatId message
    (chatId, outcomeOf result) :: sendLoop send message rest

/-- Every Finnhub row is `parseableRow` when its date string parses. -/
def parseableRow (r : RawRecord) : Bool :=
  (parseDate r.ipoDate).isSome

theorem string_length_mk (l : List Char) : (String.mk l).length = l.length := rfl

theorem string_data_length (s : String) : s.data.length = s.length := rfl

theorem buildMessage_nil (t : Nat) : buildMessage [] t = noIpoMessage t := rfl

theorem dedupGo_subset (seen : List (Option String)) (l : List IpoRecord) :
    ∀ r ∈ dedupGo seen l, r ∈ l := by
  induction l generalizing seen with
  | nil => simp [dedupGo]
  | cons x xs ih =>
    intro r hr
    simp only [dedupGo] at hr
    by_cases hx : x.symbol ∈ seen
    · rw [if_pos hx] at hr
      exact List.mem_cons_of_mem _ (ih seen r hr)
    · rw [if_neg hx] at hr
      rcases List.mem_cons.mp hr with h | h
      · exact h ▸ List.mem_cons_self _ _
      · exact List.mem_cons_of_mem _ (ih _ r h)

theorem dedupGo_symbol_not_seen (seen : List (Option String)) (l : List IpoRecord) :
    ∀ r ∈ dedupGo seen l, r.symbol ∉ seen := by
  induction l generalizing seen with
  | nil => simp [dedupGo]
  | cons x xs ih =>
    intro r hr
    simp only [dedupGo] at hr
    by_cases hx : x.symbol ∈ seen
    · rw [if_pos hx] at hr
      exact ih seen r hr
    · rw [if_neg hx] at hr
      rcases List.mem_cons.mp hr with h | h
      · subst h
        exact hx
      · intro hmem
        exact ih (x.symbol :: seen) r h (List.mem_cons_of_mem _ hmem)

theorem dedupGo_pairwise (seen : List (Option String)) (l : List IpoRecord) :
    List.Pairwise (fun a b => a.symbol ≠ b.symbol) (dedupGo seen l) := by
  induction l generalizing seen with
  | nil => simp [dedupGo]
  | cons x xs ih =>
    simp only [dedupGo]
    by_cases hx : x.symbol ∈ seen
    · rw [if_pos hx]
      exact ih seen
    · rw [if_neg hx]
      refine List.Pairwise.cons ?_ (ih _)
      intro b hb hEq
      exact dedupGo_symbol_not_seen _ _ b hb (by rw [← hEq]; exact List.mem_cons_self _ _)

theorem dedupGo_first (seen : List (Option String)) (l : List IpoRecord) :
    ∀ r ∈ dedupGo seen l, firstWithSymbol r.symbol l = some r := by
  induction l generalizing seen with
  | nil => simp [dedupGo]
  | cons x xs ih =>
    intro r hr
    simp only [dedupGo] at hr
    by_cases hx : x.symbol ∈ seen
    · rw [if_pos hx] at hr
      have hne : ¬ x.symbol = r.symbol := fun hEq =>
        dedupGo_symbol_not_seen seen xs r hr (hEq ▸ hx)
      simp only [firstWithSymbol, if_neg hne]
      exact ih seen r hr
    · rw [if_neg hx] at hr
      rcases List.mem_cons.mp hr with h | h
      · subst h
        simp [firstWithSymbol]
      · have hne : ¬ x.symbol = r.symbol := fun hEq =>
          dedupGo_symbol_not_seen _ _ r h (by rw [← hEq]; exact List.mem_cons_self _ _)
        simp only [firstWithSymbol, if_neg hne]
        exact ih _ r h

theorem dropNa_map_filter (l : List RawRecord) :
    dropNa ((l.filter parseableRow).map coerceDate) = dropNa (l.map coerceDate) := by
  induction l with
  | nil => rfl
  | cons x xs ih =>
    have hsome : (coerceDate x).ipoDate.isSome = parseableRow x := rfl
    by_cases hx : parseableRow x = true
    · simp only [List.filter_cons, hx, if_true, List.map_cons, dropNa, hsome]
      rw [show ((xs.filter parseableRow).map coerceDate).filter (fun r => r.ipoDate.isSome) =
            dropNa ((xs.filter parseableRow).map coerceDate) from rfl,
          show ((xs.map coerceDate).filter fun r => r.ipoDate.isSome) =
            dropNa (xs.map coerceDate) from rfl, ih]
    · have hx' : parseableRow x = false := by simpa using hx
      simp only [List.filter_cons, hx', List.map_cons, dropNa, hsome, Bool.false_eq_true,
        if_false]
      exact ih

theorem dateInRange_iff (d : Option Nat) (s e : Nat) :
    dateInRange d s e = true ↔ ∃ x : Nat, d = some x ∧ s ≤ x ∧ x ≤ e := by
  cases d <;> simp [dateInRange]

/-- Claim C1: on a Thursday the Period Partitioner produces exactly the three
windows `[today, today]`, `[today+1, today+3]`, `[today+4, today+10]`, with
the titles and empty messages of the Thursday branch, in that order. -/
theorem thursday_windows (t : Nat) (h : weekdayOf t = 3) :
    planWindows t =
      [⟨"Today\x27s IPOs", t, t, "None for today."⟩,
       ⟨"Remainder of This Week", t + 1, t + 3, "None for the rest of this week."⟩,
       ⟨"Next Week\x27s IPOs", t + 4, t + 10, "None scheduled for next week yet."⟩] := by
  simp [planWindows, h]

/-- Witness for C1: today = 2024-06-06 is a Thursday, and the three windows
are `[2024-06-06, 2024-06-06]`, `[2024-06-07, 2024-06-09]`,
`[2024-06-10, 2024-06-16]`, in that order. -/
theorem thursday_windows_witness :
    weekdayOf (toOrdinal 2024 6 6) = 3 ∧
    planWindows (toOrdinal 2024 6 6) =
      [⟨"Today\x27s IPOs", toOrdinal 2024 6 6, toOrdinal 2024 6 6, "None for today."⟩,
       ⟨"Remainder of This Week", toOrdinal 2024 6 7, toOrdinal 2024 6 9,
        "None for the rest of this week."⟩,
       ⟨"Next Week\x27s IPOs", toOrdinal 2024 6 10, toOrdinal 2024 6 16,
        "None scheduled for next week yet."⟩] := by
  refine ⟨by decide, ?_⟩
  rw [thursday_windows (toOrdinal 2024 6 6) (by decide)]
  decide

/-- Claim C9: when the merged collection is empty, the message is the single
fixed sentence, for every day whatsoever — no header, no window sections. -/
theorem empty_data_fixed_message (t : Nat) :
    buildMessage [] t =
      "No IPOs scheduled for today, " ++ dayName (weekdayOf t) ++ ", " ++ strftimeBD t ++ "." := rfl

/-- Claim C10: on Monday–Wednesday the second window's start `today + 1`
never exceeds its end `today + (6 - weekday)`, so the guard never drops it:
the plan is exactly the "Today" window followed by the "Remainder of This
Week" window, and every nonempty-data report renders both sections. -/
theorem early_week_guard_never_fires (t : Nat) (h : weekdayOf t ≤ 2) :
    t + 1 ≤ t + (6 - weekdayOf t) ∧
    planWindows t =
      [⟨"Today\x27s IPOs", t, t, "None for today."⟩,
       ⟨"Remainder of This Week", t + 1, t + (6 - weekdayOf t),
        "None for the rest of this week."⟩] ∧
    ∀ data : List IpoRecord, data ≠ [] →
      buildMessage data t =
        reportHeader t ++
          (format_ipo_period data t t "Today\x27s IPOs" "None for today." ++
           format_ipo_period data (t + 1) (t + (6 - weekdayOf t)) "Remainder of This Week"
             "None for the rest of this week.") := by
  have hle : t + 1 ≤ t + (6 - weekdayOf t) := by omega
  refine ⟨hle, by simp [planWindows, h, hle], ?_⟩
  intro data hd
  have hde : data.isEmpty = false := by simpa [List.isEmpty_iff] using hd
  simp [buildMessage, hde, planWindows, h, hle]

/-- Witness for C10: 2024-06-03 is a Monday; the plan is the two windows
`[Jun 03, Jun 03]` and `[Jun 04, Jun 09]`, and a one-record collection
renders as header plus the two sections. -/
theorem early_week_guard_witness :
    weekdayOf (toOrdinal 2024 6 3) ≤ 2 ∧
    planWindows (toOrdinal 2024 6 3) =
      [⟨"Today\x27s IPOs", toOrdinal 2024 6 3, toOrdinal 2024 6 3, "None for today."⟩,
       ⟨"Remainder of This Week", toOrdinal 2024 6 4, toOrdinal 2024 6 9,
        "None for the rest of this week."⟩] ∧
    buildMessage [⟨some "ABC", "Acme Inc", some (toOrdinal 2024 6 3)⟩] (toOrdinal 2024 6 3) =
      reportHeader (toOrdinal 2024 6 3) ++
        (format_ipo_period [⟨some "ABC", "Acme Inc", some (toOrdinal 2024 6 3)⟩]
            (toOrdinal 2024 6 3) (toOrdinal 2024 6 3) "Today\x27s IPOs" "None for today." ++
         format_ipo_period [⟨some "ABC", "Acme Inc", some (toOrdinal 2024 6 3)⟩]
            (toOrdinal 2024 6 3 + 1) (toOrdinal 2024 6 3 + (6 - weekdayOf (toOrdinal 2024 6 3)))
            "Remainder of This Week" "None for the rest of this week.") := by
  refine ⟨by decide, ?_, ?_⟩
  · rw [(early_week_guard_never_fires (toOrdinal 2024 6 3) (by decide)).2.1]
    decide
  · exact (early_week_guard_never_fires (toOrdinal 2024 6 3) (by decide)).2.2 _ (by decide)

/-- Claim C7: the delivery loop visits every chat id exactly once, in order,
and records for each one the outcome of its own send attempt on the
(possibly truncated) text — so one destination's failure neither aborts the
run nor affects any other destination. -/
theorem delivery_independent (send : String → String → Except String Unit) (message : String)
    (chatIds : List String) :
    sendLoop send message chatIds =
      chatIds.map (fun chatId => (chatId, outcomeOf (send chatId (truncateForSend message)))) ∧
    (sendLoop send message chatIds).map Prod.fst = chatIds := by
  have hmain : ∀ ids : List String, sendLoop send message ids =
      ids.map (fun chatId => (chatId, outcomeOf (send chatId (truncateForSend message)))) := by
    intro ids
    induction ids with
    | nil => rfl
    | cons c rest ih =>
      simp only [sendLoop, truncateForSend, List.map_cons, ih]
      by_cases h : message.length > 4096 <;> simp [h]
  refine ⟨hmain chatIds, ?_⟩
  rw [hmain chatIds]
  induction chatIds with
  | nil => rfl
  | cons c rest ih => simpa using ih

/-- Claim C2: the merged collection never contains two records with equal
symbol, and each kept record is the first occurrence of its symbol in the
concatenated (Provider A before Provider B), date-validated row order — so
Provider A's row wins over Provider B's row with the same symbol. -/
theorem merge_dedup_first_wins (avIpos fhIpos : List RawRecord) :
    List.Pairwise (fun a b => a.symbol ≠ b.symbol) (get_ipo_data avIpos fhIpos) ∧
    ∀ r ∈ get_ipo_data avIpos fhIpos,
      firstWithSymbol r.symbol (validRows avIpos fhIpos) = some r := by
  unfold get_ipo_data validRows
  by_cases hc : (avIpos ++ fhIpos).isEmpty
  · simp [hc]
  · simp only [hc, Bool.false_eq_true, if_false]
    exact ⟨dedupGo_pairwise _ _, dedupGo_first _ _⟩

/-- Witness for C2 (Scenario B): Provider A and Provider B both return symbol
`ABC` dated 2024-06-06 with different spellings; the merge keeps exactly
Provider A's record, which is the first date-valid occurrence. -/
theorem merge_dedup_witness :
    get_ipo_data [⟨some "ABC", "Acme Inc", "2024-06-06"⟩]
        [⟨some "ABC", "Acme Incorporated", "2024-06-06"⟩] =
      [⟨some "ABC", "Acme Inc", some 739043⟩] ∧
    firstWithSymbol (some "ABC")
        (validRows [⟨some "ABC", "Acme Inc", "2024-06-06"⟩]
          [⟨some "ABC", "Acme Incorporated", "2024-06-06"⟩]) =
      some ⟨some "ABC", "Acme Inc", some 739043⟩ := by
  refine ⟨by decide, ?_⟩
  exact (merge_dedup_first_wins [⟨some "ABC", "Acme Inc", "2024-06-06"⟩]
    [⟨some "ABC", "Acme Incorporated", "2024-06-06"⟩]).2
    ⟨some "ABC", "Acme Inc", some 739043⟩ (by decide)

/-- Claim C3: every record the Aggregator emits has a successfully parsed
(non-null) date, and rows whose date fails to parse are dropped — removing
them from the input changes nothing. -/
theorem merge_dates_valid (avIpos fhIpos : List RawRecord) :
    (∀ r ∈ get_ipo_data avIpos fhIpos, r.ipoDate.isSome = true) ∧
    get_ipo_data avIpos fhIpos =
      get_ipo_data (avIpos.filter parseableRow) (fhIpos.filter parseableRow) := by
  constructor
  · intro r hr
    unfold get_ipo_data at hr
    by_cases hc : (avIpos ++ fhIpos).isEmpty
    · simp [hc] at hr
    · simp only [hc, Bool.false_eq_true, if_false] at hr
      have hmem := dedupGo_subset _ _ r hr
      exact (List.mem_filter.mp hmem).2
  · unfold get_ipo_data
    by_cases h1 : (avIpos ++ fhIpos).isEmpty
    · have h0 : avIpos ++ fhIpos = [] := by simpa using h1
      have h2 : avIpos.filter parseableRow ++ fhIpos.filter parseableRow = [] := by
        rw [← List.filter_append, h0]
        rfl
      simp [h1, h2]
    · simp only [h1, Bool.false_eq_true, if_false]
      by_cases h2 : (avIpos.filter parseableRow ++ fhIpos.filter parseableRow).isEmpty
      · have h0 : (avIpos ++ fhIpos).filter parseableRow = [] := by
          rw [List.filter_append]
          simpa using h2
        rw [if_pos h2, ← dropNa_map_filter, h0]
        rfl
      · rw [if_neg (by simpa using h2), ← List.filter_append, dropNa_map_filter]

/-- Witness for C3: with one well-dated row and one row whose date string
`not-a-date` fails to parse, the surviving record has a parsed date and the
merge equals the merge of the pre-filtered inputs. -/
theorem merge_dates_valid_witness :
    ((⟨some "GOOD", "Good Co", some 739043⟩ : IpoRecord)).ipoDate.isSome = true ∧
    get_ipo_data
        [⟨some "GOOD", "Good Co", "2024-06-06"⟩, ⟨some "BAD", "Bad Co", "not-a-date"⟩] [] =
      get_ipo_data
        ([⟨some "GOOD", "Good Co", "2024-06-06"⟩,
          ⟨some "BAD", "Bad Co", "not-a-date"⟩].filter parseableRow)
        (List.filter parseableRow []) := by
  constructor
  · exact (merge_dates_valid
      [⟨some "GOOD", "Good Co", "2024-06-06"⟩, ⟨some "BAD", "Bad Co", "not-a-date"⟩] []).1
      ⟨some "GOOD", "Good Co", some 739043⟩ (by decide)
  · exact (merge_dates_valid
      [⟨some "GOOD", "Good Co", "2024-06-06"⟩, ⟨some "BAD", "Bad Co", "not-a-date"⟩] []).2

/-- Claim C5: a window with zero matching records still renders its section
as the title plus the empty-state message, and when both adapters return
empty the final text is the fixed no-IPOs sentence, never an empty report. -/
theorem empty_window_renders_message :
    (∀ (df : List IpoRecord) (s e : Nat) (title em : String), periodFilter df s e = [] →
      format_ipo_period df s e title em = "**" ++ title ++ "**\n_" ++ em ++ "_\n\n") ∧
    (∀ t : Nat, buildMessage (get_ipo_data [] []) t = noIpoMessage t ∧
      buildMessage (get_ipo_data [] []) t ≠ "") := by
  constructor
  · intro df s e title em h
    unfold format_ipo_period
    rw [h]
    by_cases hdf : df.isEmpty <;> simp [hdf]
  · intro t
    have h1 : buildMessage (get_ipo_data [] []) t = noIpoMessage t := rfl
    refine ⟨h1, ?_⟩
    rw [h1]
    intro hcontra
    have hlen := congrArg String.length hcontra
    rw [noIpoMessage, String.length_append, String.length_append, String.length_append,
      String.length_append] at hlen
    have h29 : ("No IPOs scheduled for today, " : String).length = 29 := rfl
    have h2 : (", " : String).length = 2 := rfl
    have hdot : ("." : String).length = 1 := rfl
    have h0 : ("" : String).length = 0 := rfl
    omega

/-- Witness for C5: a singleton collection dated outside the window renders
the window's empty section. -/
theorem empty_window_witness :
    periodFilter [⟨some "A", "X Co", some 10⟩] 3 5 = [] ∧
    format_ipo_period [⟨some "A", "X Co", some 10⟩] 3 5 "Today\x27s IPOs" "None for today." =
      "**" ++ "Today\x27s IPOs" ++ "**\n_" ++ "None for today." ++ "_\n\n" := by
  refine ⟨by decide, ?_⟩
  exact empty_window_renders_message.1 [⟨some "A", "X Co", some 10⟩] 3 5
    "Today\x27s IPOs" "None for today." (by decide)

/-- Claim C6: a record dated exactly `end_date` is kept by the window filter,
a record dated one day later is excluded, and membership in the filtered
rows is exactly `start_date ≤ ipo_date ≤ end_date`. -/
theorem window_boundary_inclusion (df : List IpoRecord) (s e : Nat) (h : s ≤ e) :
    (∀ r ∈ df, r.ipoDate = some e → r ∈ periodFilter df s e) ∧
    (∀ r ∈ df, r.ipoDate = some (e + 1) → r ∉ periodFilter df s e) ∧
    (∀ r : IpoRecord, r ∈ periodFilter df s e ↔
      r ∈ df ∧ ∃ d : Nat, r.ipoDate = some d ∧ s ≤ d ∧ d ≤ e) := by
  have hmem : ∀ r : IpoRecord, r ∈ periodFilter df s e ↔
      r ∈ df ∧ ∃ d : Nat, r.ipoDate = some d ∧ s ≤ d ∧ d ≤ e := by
    intro r
    rw [periodFilter, List.mem_filter, dateInRange_iff]
  refine ⟨?_, ?_, hmem⟩
  · intro r hr hdate
    exact (hmem r).mpr ⟨hr, e, hdate, h, le_refl e⟩
  · intro r hr hdate hin
    obtain ⟨-, d, hd, -, hde⟩ := (hmem r).mp hin
    rw [hdate] at hd
    have hd' := Option.some.inj hd
    omega

/-- Witness for C6: with window `[3, 5]`, the record dated 5 is kept and the
record dated 6 is excluded. -/
theorem window_boundary_witness :
    (⟨some "A", "X Co", some 5⟩ : IpoRecord) ∈
      periodFilter [⟨some "A", "X Co", some 5⟩, ⟨some "B", "Y Co", some 6⟩] 3 5 ∧
    (⟨some "B", "Y Co", some 6⟩ : IpoRecord) ∉
      periodFilter [⟨some "A", "X Co", some 5⟩, ⟨some "B", "Y Co", some 6⟩] 3 5 := by
  constructor
  · exact (window_boundary_inclusion
      [⟨some "A", "X Co", some 5⟩, ⟨some "B", "Y Co", some 6⟩] 3 5 (by decide)).1
      ⟨some "A", "X Co", some 5⟩ (by decide) rfl
  · exact (window_boundary_inclusion
      [⟨some "A", "X Co", some 5⟩, ⟨some "B", "Y Co", some 6⟩] 3 5 (by decide)).2.1
      ⟨some "B", "Y Co", some 6⟩ (by decide) rfl

theorem truncateForSend_of_long (msg : String) (h : 4096 < msg.length) :
    truncateForSend msg = String.mk (msg.data.take 4090) ++ "\n..." := by
  unfold truncateForSend
  rw [if_pos (by omega)]

theorem truncateForSend_length_of_long (msg : String) (h : 4096 < msg.length) :
    (truncateForSend msg).length = 4094 := by
  rw [truncateForSend_of_long msg h, String.length_append, string_length_mk, List.length_take,
    string_data_length]
  have h4 : ("\n..." : String).length = 4 := rfl
  omega

/-- Claim C4 counterexample: for the 5000-character text, the sent text is
not "the first 4090 characters plus a 6-character marker" — its length is
4094, not 4096, because the marker `"\n..."` is 4 characters. -/
theorem truncation_marker_not_six :
    (String.mk (List.replicate 5000 'a')).length = 5000 ∧
    ¬ ∃ marker : String, marker.length = 6 ∧
      truncateForSend (String.mk (List.replicate 5000 'a')) =
        String.mk ((String.mk (List.replicate 5000 'a')).data.take 4090) ++ marker := by
  have hlen : (String.mk (List.replicate 5000 'a')).length = 5000 := by
    rw [string_length_mk, List.length_replicate]
  refine ⟨hlen, ?_⟩
  rintro ⟨marker, hm, heq⟩
  have h1 : (truncateForSend (String.mk (List.replicate 5000 'a'))).length = 4094 :=
    truncateForSend_length_of_long _ (by omega)
  have h2 := congrArg String.length heq
  rw [h1, String.length_append, string_length_mk, List.length_take, string_data_length,
    hlen, hm] at h2
  omega

/-- Claim C4 as amended: texts of length at most 4096 are sent unmodified;
longer texts are truncated to their first 4090 characters plus the 4-character
marker `"\n..."`, for a total length of 4094 ≤ 4096. -/
theorem truncation_amended (msg : String) :
    (msg.length ≤ 4096 → truncateForSend msg = msg) ∧
    (4096 < msg.length →
      truncateForSend msg = String.mk (msg.data.take 4090) ++ "\n..." ∧
      ("\n..." : String).length = 4 ∧
      (truncateForSend msg).length = 4094 ∧
      (truncateForSend msg).length ≤ 4096) := by
  constructor
  · intro h
    unfold truncateForSend
    rw [if_neg (by omega)]
  · intro h
    refine ⟨truncateForSend_of_long msg h, rfl, truncateForSend_length_of_long msg h, ?_⟩
    rw [truncateForSend_length_of_long msg h]
    omega

/-- Witness for C4: the two-character text `hi` passes through unchanged, and
the 5000-character text is cut to length 4094. -/
theorem truncation_amended_witness :
    (("hi" : String).length ≤ 4096 ∧ truncateForSend "hi" = "hi") ∧
    (4096 < (String.mk (List.replicate 5000 'a')).length ∧
      (truncateForSend (String.mk (List.replicate 5000 'a'))).length = 4094) := by
  have hlong : 4096 < (String.mk (List.replicate 5000 'a')).length := by
    rw [string_length_mk, List.length_replicate]
    omega
  exact ⟨⟨by decide, (truncation_amended "hi").1 (by decide)⟩,
    ⟨hlong, ((truncation_amended _).2 hlong).2.2.1⟩⟩

/-- Claim C8 counterexample: in a Finnhub response where one entry has a
symbol and another lacks it, the adapter emits the second record with an
absent symbol, not with the placeholder `N/A`. -/
theorem finnhub_mixed_symbol_counterexample :
    get_finnhub_ipos [⟨some "ABC", "Acme", "2024-06-06"⟩, ⟨none, "Beta", "2024-06-07"⟩] =
      [⟨some "ABC", "Acme", "2024-06-06"⟩, ⟨none, "Beta", "2024-06-07"⟩] ∧
    ∃ r ∈ get_finnhub_ipos [⟨some "ABC", "Acme", "2024-06-06"⟩, ⟨none, "Beta", "2024-06-07"⟩],
      r.symbol = none := by
  refine ⟨by decide, ⟨⟨none, "Beta", "2024-06-07"⟩, by decide, rfl⟩⟩

/-- Claim C8 as amended: the `N/A` placeholder is substituted only when every
entry of the response lacks the symbol field (then the whole column is
created); otherwise each record keeps its own, possibly absent, symbol. -/
theorem finnhub_symbol_amended (data : List FinnhubRaw) :
    ((∀ r ∈ data, r.symbol = none) →
      ∀ r ∈ get_finnhub_ipos data, r.symbol = some "N/A") ∧
    ((∃ r ∈ data, r.symbol ≠ none) →
      get_finnhub_ipos data = data.map (fun r => ⟨r.symbol, r.name, r.date⟩)) := by
  constructor
  · intro hall r hr
    unfold get_finnhub_ipos at hr
    by_cases he : data.isEmpty
    · simp [he] at hr
    · have hAll : data.all (fun r => r.symbol.isNone) = true := by
        rw [List.all_eq_true]
        intro x hx
        simp [hall x hx]
      simp only [he, Bool.false_eq_true, if_false, hAll, if_true] at hr
      obtain ⟨x, hx, hxe⟩ := List.mem_map.mp hr
      rw [← hxe]
  · rintro ⟨x, hx, hxs⟩
    unfold get_finnhub_ipos
    have hne : data.isEmpty = false := by
      cases data with
      | nil => cases hx
      | cons a l => rfl
    have hnall : data.all (fun r => r.symbol.isNone) = false := by
      rw [List.all_eq_false]
      exact ⟨x, hx, by simpa [Option.isNone_iff_eq_none] using hxs⟩
    simp only [hne, Bool.false_eq_true, if_false, hnall]

/-- Witness for C8 amended: an all-missing response gets the placeholder on
its record, and the mixed response keeps both records as they came. -/
theorem finnhub_symbol_witness :
    (∀ r ∈ get_finnhub_ipos [⟨none, "Beta", "2024-06-07"⟩], r.symbol = some "N/A") ∧
    get_finnhub_ipos [⟨some "ABC", "Acme", "2024-06-06"⟩, ⟨none, "Beta", "2024-06-07"⟩] =
      [(⟨some "ABC", "Acme", "2024-06-06"⟩ : FinnhubRaw),
       ⟨none, "Beta", "2024-06-07"⟩].map (fun r => ⟨r.symbol, r.name, r.date⟩) := by
  constructor
  · exact (finnhub_symbol_amended [⟨none, "Beta", "2024-06-07"⟩]).1 (by decide)
  · exact (finnhub_symbol_amended
      [⟨some "ABC", "Acme", "2024-06-06"⟩, ⟨none, "Beta", "2024-06-07"⟩]).2
      ⟨⟨some "ABC", "Acme", "2024-06-06"⟩, by decide, by decide⟩

end IpoBot
